import Mathlib

/-!
Shallow embedding of `src/YT_video_finder_with_analysis/main.py`.

Modelling conventions:
* Python numbers (ints and IEEE floats) are modelled as rationals; every
  numeric value reached by the statements below is exactly representable.
* Python dicts are modelled as association lists in insertion order;
  assignment to an existing key updates the value in place (`dictInsert`).
* Network calls and the language-model call are modelled as oracle arguments
  carrying the response the external service returns, or the exception it
  raises, as an `Except` value.
* The two regular expressions of the file (the anchored ISO-8601 duration
  pattern and the greedy first-open-brace-to-last-close-brace search) and
  strict JSON decoding are embedded directly; the digit class is modelled as
  the ASCII digits.
-/

deriving instance DecidableEq for Except

namespace YTFinder

/-- Value of an ASCII digit run, most significant first. -/
def digitsToNat (ds : List Char) : Nat :=
  ds.foldl (fun n c => 10 * n + (c.toNat - 48)) 0

/-- One optional component of the anchored duration pattern: greedily read a
non-empty ASCII digit run and require the given suffix letter right after it;
otherwise the component is absent and consumes nothing. -/
def comp (suffix : Char) (s : List Char) : Option Nat × List Char :=
  let ds := s.takeWhile (·.isDigit)
  let rest := s.dropWhile (·.isDigit)
  if ds = [] then (none, s)
  else
    match rest with
    | [] => (none, s)
    | c :: rest2 => if c = suffix then (some (digitsToNat ds), rest2) else (none, s)

/-- The three capture groups of the duration pattern. -/
structure DurGroups where
  hours : Option Nat
  minutes : Option Nat
  seconds : Option Nat
deriving DecidableEq

/-- Anchored match of the duration pattern against the start of the input:
requires the literal prefix letters P and T, then the three optional
components in order; returns the groups and the unconsumed remainder. -/
def durMatch (s : List Char) : Option (DurGroups × List Char) :=
  match s with
  | 'P' :: 'T' :: rest =>
    let hr := comp 'H' rest
    let mr := comp 'M' hr.2
    let sr := comp 'S' mr.2
    some (⟨hr.1, mr.1, sr.1⟩, sr.2)
  | _ => none

/-- Total minutes from the matched groups: absent groups count as zero and
seconds contribute one sixtieth each (main.py lines 54-58). -/
def durValue (g : DurGroups) : ℚ :=
  (g.hours.getD 0 : ℚ) * 60 + (g.minutes.getD 0 : ℚ) + (g.seconds.getD 0 : ℚ) / 60

/-- Character-list form of `convert_iso_duration_to_minutes`. -/
def convertChars (s : List Char) : ℚ :=
  match durMatch s with
  | none => 0
  | some (g, _) => durValue g

/-- Embeds `convert_iso_duration_to_minutes` (main.py lines 44-59). -/
def convert_iso_duration_to_minutes (duration : String) : ℚ :=
  convertChars duration.data

/-- Python dict assignment on an insertion-ordered association list: an
existing key keeps its position and gets the new value, a new key is
appended at the end. -/
def dictInsert {κ α : Type} [BEq κ] (d : List (κ × α)) (k : κ) (v : α) : List (κ × α) :=
  if d.any (fun p => p.1 == k) then d.map (fun p => if p.1 == k then (k, v) else p)
  else d ++ [(k, v)]

/-- Python dict lookup. -/
def assocGet {κ α : Type} [BEq κ] (d : List (κ × α)) (k : κ) : Option α :=
  (d.find? (fun p => p.1 == k)).map (·.2)

/-- Characters removed by Python str.strip. -/
def isPySpace (c : Char) : Bool :=
  c == ' ' || c == '\t' || c == '\n' || c == '\r' || c == '\x0b' || c == '\x0c'

/-- Embeds str.strip: drop whitespace from both ends. -/
def pyStrip (s : List Char) : List Char :=
  ((s.dropWhile isPySpace).reverse.dropWhile isPySpace).reverse

/-- Index of the last close brace of a line segment. -/
def lastRBrace : List Char → Option Nat
  | [] => none
  | c :: rest =>
    match lastRBrace rest with
    | some i => some (i + 1)
    | none => if c = '\x7d' then some 0 else none

/-- Attempt of the greedy brace pattern of main.py line 77 at the current
position: it succeeds only on an open brace with a close brace later on the
same line, and spans to the last close brace of that line, because the dot
of the pattern is greedy and does not cross a newline. -/
def braceMatchAt (s : List Char) : Option (List Char) :=
  match s with
  | '\x7b' :: rest =>
    let line := rest.takeWhile (fun c => c != '\n')
    match lastRBrace line with
    | none => none
    | some k => some ('\x7b' :: line.take (k + 1))
  | _ => none

/-- Leftmost match of the greedy brace pattern, as re.search finds it. -/
def reSearchBraces : List Char → Option (List Char)
  | [] => none
  | c :: rest =>
    match braceMatchAt (c :: rest) with
    | some m => some m
    | none => reSearchBraces rest

/-- JSON values as decoded by json.loads. -/
inductive JVal where
  | jnull
  | jbool (b : Bool)
  | jnum (q : ℚ)
  | jstr (s : List Char)
  | jarr (elts : List JVal)
  | jobj (members : List (List Char × JVal))

/-- JSON insignificant whitespace. -/
def isJsonWs (c : Char) : Bool := c == ' ' || c == '\t' || c == '\n' || c == '\r'

/-- Skip insignificant whitespace. -/
def skipWs (s : List Char) : List Char := s.dropWhile isJsonWs

/-- Value of one hexadecimal digit. -/
def hexVal (c : Char) : Option Nat :=
  if c.isDigit then some (c.toNat - 48)
  else if 'a' ≤ c ∧ c ≤ 'f' then some (c.toNat - 87)
  else if 'A' ≤ c ∧ c ≤ 'F' then some (c.toNat - 55)
  else none

/-- Body of a JSON string after its opening quote: literal characters above
the control range and the standard escapes; returns the decoded text and the
input after the closing quote. -/
def parseJStr : List Char → Option (List Char × List Char)
  | [] => none
  | '"' :: r => some ([], r)
  | '\\' :: '"' :: r => (parseJStr r).map (fun p => ('"' :: p.1, p.2))
  | '\\' :: '\\' :: r => (parseJStr r).map (fun p => ('\\' :: p.1, p.2))
  | '\\' :: '/' :: r => (parseJStr r).map (fun p => ('/' :: p.1, p.2))
  | '\\' :: 'b' :: r => (parseJStr r).map (fun p => ('\x08' :: p.1, p.2))
  | '\\' :: 'f' :: r => (parseJStr r).map (fun p => ('\x0c' :: p.1, p.2))
  | '\\' :: 'n' :: r => (parseJStr r).map (fun p => ('\n' :: p.1, p.2))
  | '\\' :: 'r' :: r => (parseJStr r).map (fun p => ('\r' :: p.1, p.2))
  | '\\' :: 't' :: r => (parseJStr r).map (fun p => ('\t' :: p.1, p.2))
  | '\\' :: 'u' :: a :: b :: c :: d :: r =>
    match hexVal a, hexVal b, hexVal c, hexVal d with
    | some x, some y, some z, some w =>
      (parseJStr r).map (fun p => (Char.ofNat (4096 * x + 256 * y + 16 * z + w) :: p.1, p.2))
    | _, _, _, _ => none
  | '\\' :: _ => none
  | c :: r => if c.toNat < 32 then none else (parseJStr r).map (fun p => (c :: p.1, p.2))

/-- Power of ten as a rational, for exponent parts. -/
def pow10 (e : Int) : ℚ :=
  if 0 ≤ e then ((10 : ℚ) ^ e.toNat) else 1 / ((10 : ℚ) ^ (-e).toNat)

/-- Optional fraction part: value of the digits, their count, and the rest;
a point must be followed by at least one digit. -/
def parseFrac (s : List Char) : Option (Nat × Nat × List Char) :=
  match s with
  | '.' :: r =>
    let fds := r.takeWhile (·.isDigit)
    if fds = [] then none else some (digitsToNat fds, fds.length, r.dropWhile (·.isDigit))
  | _ => some (0, 0, s)

/-- Optional exponent part: e or E, an optional sign, at least one digit. -/
def parseExp (s : List Char) : Option (Int × List Char) :=
  match s with
  | 'e' :: r | 'E' :: r =>
    let sgnRest : Int × List Char :=
      match r with
      | '+' :: r2 => (1, r2)
      | '-' :: r2 => (-1, r2)
      | _ => (1, r)
    let eds := sgnRest.2.takeWhile (·.isDigit)
    if eds = [] then none
    else some (sgnRest.1 * (digitsToNat eds : Int), sgnRest.2.dropWhile (·.isDigit))
  | _ => some (0, s)

/-- Strict JSON number: optional minus, integer part without leading zeros,
optional fraction and exponent, decoded as an exact rational. -/
def parseJNum (s : List Char) : Option (ℚ × List Char) :=
  let negRest : Bool × List Char := match s with | '-' :: r => (true, r) | _ => (false, s)
  match negRest.2 with
  | [] => none
  | c :: rest =>
    if c.isDigit then
      let ipRest : List Char × List Char :=
        if c = '0' then ([c], rest)
        else (negRest.2.takeWhile (·.isDigit), negRest.2.dropWhile (·.isDigit))
      match parseFrac ipRest.2 with
      | none => none
      | some (fv, fl, s3) =>
        match parseExp s3 with
        | none => none
        | some (ev, s4) =>
          let mag : ℚ := ((digitsToNat ipRest.1 : ℚ) + (fv : ℚ) / (10 : ℚ) ^ fl) * pow10 ev
          some ((if negRest.1 then -mag else mag), s4)
    else none

mutual

/-- One JSON value, fuel-bounded; the input starts at the value itself. -/
def parseJVal : Nat → List Char → Option (JVal × List Char)
  | 0, _ => none
  | Nat.succ fuel, s =>
    match s with
    | 'n' :: 'u' :: 'l' :: 'l' :: r => some (JVal.jnull, r)
    | 't' :: 'r' :: 'u' :: 'e' :: r => some (JVal.jbool true, r)
    | 'f' :: 'a' :: 'l' :: 's' :: 'e' :: r => some (JVal.jbool false, r)
    | '"' :: r => (parseJStr r).map (fun p => (JVal.jstr p.1, p.2))
    | '[' :: r =>
      match skipWs r with
      | ']' :: r2 => some (JVal.jarr [], r2)
      | r1 => parseArrItems fuel r1 []
    | '\x7b' :: r =>
      match skipWs r with
      | '\x7d' :: r2 => some (JVal.jobj [], r2)
      | r1 => parseObjItems fuel r1 []
    | _ => (parseJNum s).map (fun p => (JVal.jnum p.1, p.2))

/-- Elements of a non-empty JSON array, fuel-bounded. -/
def parseArrItems : Nat → List Char → List JVal → Option (JVal × List Char)
  | 0, _, _ => none
  | Nat.succ fuel, s, acc =>
    match parseJVal fuel s with
    | none => none
    | some (v, t) =>
      match skipWs t with
      | ',' :: t2 => parseArrItems fuel (skipWs t2) (acc ++ [v])
      | ']' :: t2 => some (JVal.jarr (acc ++ [v]), t2)
      | _ => none

/-- Members of a non-empty JSON object, fuel-bounded; a repeated key keeps
its position and takes the later value, as a Python dict does. -/
def parseObjItems : Nat → List Char → List (List Char × JVal) →
    Option (JVal × List Char)
  | 0, _, _ => none
  | Nat.succ fuel, s, acc =>
    match s with
    | '"' :: r =>
      match parseJStr r with
      | none => none
      | some (key, t) =>
        match skipWs t with
        | ':' :: t2 =>
          match parseJVal fuel (skipWs t2) with
          | none => none
          | some (v, u) =>
            match skipWs u with
            | ',' :: u2 => parseObjItems fuel (skipWs u2) (dictInsert acc key v)
            | '\x7d' :: u2 => some (JVal.jobj (dictInsert acc key v), u2)
            | _ => none
        | _ => none
    | _ => none

end

/-- Embeds json.loads: one JSON document with surrounding whitespace allowed
and trailing data rejected. -/
def json_loads (s : List Char) : Option JVal :=
  match parseJVal (s.length + 1) (skipWs s) with
  | none => none
  | some (v, rest) => if skipWs rest = [] then some v else none

/-- Embeds float(str) on finite decimal literals: optional surrounding
whitespace and sign, digits with an optional point and exponent. Non-finite
literals are outside this model. -/
def pyFloatOfStr (s : List Char) : Option ℚ :=
  let t := pyStrip s
  let negRest : Bool × List Char :=
    match t with
    | '-' :: r => (true, r)
    | '+' :: r => (false, r)
    | _ => (false, t)
  let ip := negRest.2.takeWhile (·.isDigit)
  let r1 := negRest.2.dropWhile (·.isDigit)
  let fracTriple : Nat × Nat × List Char :=
    match r1 with
    | '.' :: r2 =>
      (digitsToNat (r2.takeWhile (·.isDigit)), (r2.takeWhile (·.isDigit)).length,
        r2.dropWhile (·.isDigit))
    | _ => (0, 0, r1)
  if ip = [] ∧ fracTriple.2.1 = 0 then none
  else
    match parseExp fracTriple.2.2 with
    | none => none
    | some (ev, r4) =>
      if r4 = [] then
        let mag : ℚ :=
          ((digitsToNat ip : ℚ) + (fracTriple.1 : ℚ) / (10 : ℚ) ^ fracTriple.2.1) * pow10 ev
        some (if negRest.1 then -mag else mag)
      else none

/-- Failure classes inside one scoring call. -/
inductive ScoreErr where
  | callFailed
  | noJson
  | parseFailed
  | badScoreValue
deriving DecidableEq

/-- Value of result.get "score" with default 0 followed by float, as in
main.py line 82; the error constructor models the TypeError float raises on
a non-numeric value. -/
def scoreOfObj (m : List (List Char × JVal)) : Except ScoreErr ℚ :=
  match assocGet m ("score".data) with
  | none => Except.ok 0
  | some (JVal.jnum q) => Except.ok q
  | some (JVal.jbool b) => Except.ok (if b then 1 else 0)
  | some (JVal.jstr sv) =>
    match pyFloatOfStr sv with
    | some q => Except.ok q
    | none => Except.error ScoreErr.badScoreValue
  | some _ => Except.error ScoreErr.badScoreValue

/-- Body of the try block of call_llm_to_score_title (main.py lines 73-83),
given the outcome of the model call as an oracle. -/
def scoreTryBody (resp : Except Unit String) : Except ScoreErr ℚ :=
  match resp with
  | Except.error _ => Except.error ScoreErr.callFailed
  | Except.ok content =>
    let c := pyStrip content.data
    match reSearchBraces c with
    | none => Except.error ScoreErr.noJson
    | some jsub =>
      match json_loads jsub with
      | none => Except.error ScoreErr.parseFailed
      | some (JVal.jobj m) => scoreOfObj m
      | some _ => Except.error ScoreErr.badScoreValue

/-- Embeds call_llm_to_score_title (main.py lines 61-86): every failure of
the body is caught and mapped to score zero. The query and title enter only
through the prompt, hence only through the oracle response. -/
def call_llm_to_score_title (resp : Except Unit String) : ℚ :=
  match scoreTryBody resp with
  | Except.ok q => q
  | Except.error _ => 0

/-- Lightweight search result records (main.py lines 111-119). -/
structure SearchVideo where
  id : String
  title : String
  publishedAt : String
deriving DecidableEq

/-- One item of the details response as read by main.py lines 137-144. -/
structure RawDetailItem where
  id : String
  duration : String
  title : String
  publishedAt : String
  channelTitle : String
deriving DecidableEq

/-- Per-video detail record (main.py lines 140-145). -/
structure VideoDetail where
  title : String
  duration : String
  publishedAt : String
  channelTitle : String
deriving DecidableEq

/-- Upstream HTTP response of the details call, as an oracle. -/
structure DetailsResponse where
  status : Nat
  text : String
  items : List RawDetailItem
deriving DecidableEq

/-- Embeds get_video_details (main.py lines 122-146) with the upstream HTTP
response supplied as an oracle. The ids only form the request parameter, so
the request is issued even for an empty batch. -/
def get_video_details (video_ids : List String) (resp : DetailsResponse) :
    Except String (List (String × VideoDetail)) :=
  let _idParam := String.intercalate "," video_ids
  if resp.status ≠ 200 then
    Except.error ("YouTube API error: " ++ toString resp.status ++ " " ++ resp.text)
  else
    Except.ok (resp.items.foldl
      (fun d v => dictInsert d v.id ⟨v.title, v.duration, v.publishedAt, v.channelTitle⟩) [])

/-- Inclusive range test of the duration filter (main.py line 155); the
upper bound none stands for float inf. -/
def inDurationRange (minMinutes : ℚ) (maxMinutes : Option ℚ) (d : ℚ) : Bool :=
  decide (minMinutes ≤ d) &&
    (match maxMinutes with
     | none => true
     | some m => decide (d ≤ m))

/-- Embeds filter_videos_by_duration (main.py lines 148-157). -/
def filter_videos_by_duration (video_details : List (String × VideoDetail))
    (minMinutes : ℚ) (maxMinutes : Option ℚ) : List (String × VideoDetail) :=
  video_details.foldl
    (fun acc p =>
      if inDurationRange minMinutes maxMinutes (convert_iso_duration_to_minutes p.2.duration)
      then dictInsert acc p.1 p.2
      else acc) []

/-- Duration bounds chosen by process_query from the category
(main.py lines 184-195); every string other than short, medium and long
takes the any branch. -/
def durationBounds (video_duration : String) : ℚ × Option ℚ :=
  if video_duration = "short" then (0, some 4)
  else if video_duration = "medium" then (4, some 20)
  else if video_duration = "long" then (20, none)
  else (0, none)

/-- Fold of Python max with a key function: the current best is replaced
only on a strictly greater value, so the first maximal element wins. -/
def pyMaxGo (bk : String) (bv : ℚ) : List (String × ℚ) → String
  | [] => bk
  | (k, v) :: rest => if bv < v then pyMaxGo k v rest else pyMaxGo bk bv rest

/-- Embeds max over the keys of the insertion-ordered score map with the
score as key function (main.py line 206). -/
def pyMaxKey : List (String × ℚ) → Option String
  | [] => none
  | (k, v) :: rest => some (pyMaxGo k v rest)

/-- Outcomes of the external calls of one run: the search result or the
exception text it raises, the HTTP response of the details call, and the
model response for each (query, title) pair. -/
structure Oracle where
  searchResp : Except String (List SearchVideo)
  detailsResp : DetailsResponse
  llmResp : String → String → Except Unit String

/-- Result dict of process_query: either the error record or the winning
detail record extended with its watch url. -/
inductive ProcResult where
  | err (msg : String)
  | best (title duration publishedAt channelTitle url : String)
deriving DecidableEq

/-- Embeds process_query (main.py lines 159-210). -/
def process_query (query : String) (days : Nat) (video_duration : String)
    (o : Oracle) : ProcResult :=
  let _lookbackDays := days
  match o.searchResp with
  | Except.error e => ProcResult.err ("Error during YouTube search: " ++ e)
  | Except.ok videos =>
    if videos = [] then ProcResult.err "No videos found."
    else
      match get_video_details (videos.map (·.id)) o.detailsResp with
      | Except.error e => ProcResult.err ("Error fetching video details: " ++ e)
      | Except.ok details =>
        let b := durationBounds video_duration
        let filtered := filter_videos_by_duration details b.1 b.2
        if filtered = [] then
          ProcResult.err "No videos found with the selected duration filter."
        else
          let video_scores := filtered.foldl
            (fun acc p => dictInsert acc p.1 (call_llm_to_score_title (o.llmResp query p.2.title)))
            []
          match pyMaxKey video_scores with
          | none => ProcResult.err "max() arg is an empty sequence"
          | some best_id =>
            match assocGet filtered best_id with
            | none => ProcResult.err ("KeyError: " ++ best_id)
            | some bv =>
              ProcResult.best bv.title bv.duration bv.publishedAt bv.channelTitle
                ("https://www.youtube.com/watch?v=" ++ best_id)

/-! Concrete run data used by several statements below: two candidates, one
three minutes long, one ten minutes long. -/

/-- Search record of candidate A. -/
def searchA : SearchVideo := ⟨"aaa111", "Chill lofi mix A", "2026-10-01T00:00:00Z"⟩

/-- Search record of candidate B. -/
def searchB : SearchVideo := ⟨"bbb222", "Lofi beats to relax B", "2026-10-02T00:00:00Z"⟩

/-- Details response item of candidate A, with a three minute duration. -/
def rawA : RawDetailItem :=
  ⟨"aaa111", "PT3M", "Chill lofi mix A", "2026-10-01T00:00:00Z", "ChanA"⟩

/-- Details response item of candidate B, with a ten minute duration. -/
def rawB : RawDetailItem :=
  ⟨"bbb222", "PT10M", "Lofi beats to relax B", "2026-10-02T00:00:00Z", "ChanB"⟩

/-- Detail record of candidate A. -/
def detA : VideoDetail := ⟨"Chill lofi mix A", "PT3M", "2026-10-01T00:00:00Z", "ChanA"⟩

/-- Detail record of candidate B. -/
def detB : VideoDetail := ⟨"Lofi beats to relax B", "PT10M", "2026-10-02T00:00:00Z", "ChanB"⟩

/-- Model oracle scoring candidate A at 40 and candidate B at 90. -/
def llmScores4090 : String → String → Except Unit String := fun _ title =>
  if title = "Lofi beats to relax B" then Except.ok "\x7b\"score\": 90\x7d"
  else Except.ok "\x7b\"score\": 40\x7d"

/-- Model oracle failing on candidate A and scoring candidate B at 50. -/
def llmFailA : String → String → Except Unit String := fun _ title =>
  if title = "Lofi beats to relax B" then Except.ok "\x7b\"score\": 50\x7d"
  else Except.error ()

/-- Model oracle whose call always raises. -/
def llmAllFail : String → String → Except Unit String := fun _ _ => Except.error ()

/-! Helper lemmas about the dictionary and filter model. -/

theorem dictInsert_of_not_mem {α : Type} (d : List (String × α)) (k : String) (v : α)
    (h : ∀ p ∈ d, p.1 ≠ k) : dictInsert d k v = d ++ [(k, v)] := by
  have hany : d.any (fun p => p.1 == k) = false := by
    rw [List.any_eq_false]
    intro p hp
    simpa using h p hp
  simp [dictInsert, hany]

/-- The per-entry predicate of the duration filter. -/
def durPred (minMinutes : ℚ) (maxMinutes : Option ℚ) (p : String × VideoDetail) : Bool :=
  inDurationRange minMinutes maxMinutes (convert_iso_duration_to_minutes p.2.duration)

theorem inDurationRange_iff (minMinutes : ℚ) (maxMinutes : Option ℚ) (d : ℚ) :
    inDurationRange minMinutes maxMinutes d = true ↔
      minMinutes ≤ d ∧ ∀ m, maxMinutes = some m → d ≤ m := by
  cases maxMinutes <;> simp [inDurationRange]

theorem filter_fold_eq (minMinutes : ℚ) (maxMinutes : Option ℚ)
    (vd : List (String × VideoDetail)) :
    ∀ acc, (∀ p ∈ acc, ∀ q ∈ vd, p.1 ≠ q.1) → (vd.map Prod.fst).Nodup →
      vd.foldl
        (fun acc p =>
          if inDurationRange minMinutes maxMinutes (convert_iso_duration_to_minutes p.2.duration)
          then dictInsert acc p.1 p.2
          else acc) acc
        = acc ++ vd.filter (durPred minMinutes maxMinutes) := by
  induction vd with
  | nil => intro acc _ _; simp
  | cons hd t ih =>
    intro acc hdisj hnd
    obtain ⟨k, d⟩ := hd
    have hk : k ∉ t.map Prod.fst := (List.nodup_cons.mp hnd).1
    have hnd' : (t.map Prod.fst).Nodup := (List.nodup_cons.mp hnd).2
    rw [List.foldl_cons]
    by_cases hp : inDurationRange minMinutes maxMinutes
        (convert_iso_duration_to_minutes d.duration) = true
    · rw [if_pos hp]
      have hins : dictInsert acc k d = acc ++ [(k, d)] :=
        dictInsert_of_not_mem acc k d
          (fun p hpmem => hdisj p hpmem (k, d) (List.mem_cons_self _ _))
      rw [hins]
      have hdisj' : ∀ p ∈ acc ++ [(k, d)], ∀ q ∈ t, p.1 ≠ q.1 := by
        intro p hpmem q hq
        rcases List.mem_append.mp hpmem with hin | hin
        · exact hdisj p hin q (List.mem_cons_of_mem _ hq)
        · have hpe : p = (k, d) := by simpa using hin
          rw [hpe]
          intro hkq
          apply hk
          have hq1 : q.1 ∈ t.map Prod.fst := List.mem_map_of_mem Prod.fst hq
          simpa [← hkq] using hq1
      rw [ih (acc ++ [(k, d)]) hdisj' hnd']
      have hfil : ((k, d) :: t).filter (durPred minMinutes maxMinutes)
          = (k, d) :: t.filter (durPred minMinutes maxMinutes) := by
        simp [List.filter_cons, durPred, hp]
      rw [hfil, List.append_assoc]
      rfl
    · rw [if_neg hp]
      have hdisj' : ∀ p ∈ acc, ∀ q ∈ t, p.1 ≠ q.1 := by
        intro p hpmem q hq
        exact hdisj p hpmem q (List.mem_cons_of_mem _ hq)
      rw [ih acc hdisj' hnd']
      have hfil : ((k, d) :: t).filter (durPred minMinutes maxMinutes)
          = t.filter (durPred minMinutes maxMinutes) := by
        simp [List.filter_cons, durPred, hp]
      rw [hfil]

theorem filter_eq_listFilter (vd : List (String × VideoDetail)) (minMinutes : ℚ)
    (maxMinutes : Option ℚ) (hnd : (vd.map Prod.fst).Nodup) :
    filter_videos_by_duration vd minMinutes maxMinutes
      = vd.filter (durPred minMinutes maxMinutes) := by
  unfold filter_videos_by_duration
  simpa using filter_fold_eq minMinutes maxMinutes vd [] (by simp) hnd

/-! Helper lemmas about the max reduction. -/

theorem pyMaxGo_of_le (l : List (String × ℚ)) :
    ∀ bk bv, (∀ p ∈ l, p.2 ≤ bv) → pyMaxGo bk bv l = bk := by
  induction l with
  | nil => intro bk bv _; rfl
  | cons hd t ih =>
    intro bk bv hle
    obtain ⟨k, v⟩ := hd
    have hv : ¬ bv < v := not_lt.mpr (hle (k, v) (List.mem_cons_self _ _))
    rw [pyMaxGo, if_neg hv]
    exact ih bk bv (fun p hp => hle p (List.mem_cons_of_mem _ hp))

theorem pyMaxGo_spec (l : List (String × ℚ)) :
    ∀ bk bv,
      (pyMaxGo bk bv l = bk ∧ ∀ p ∈ l, p.2 ≤ bv) ∨
      (∃ v0 pre post, l = pre ++ (pyMaxGo bk bv l, v0) :: post ∧ bv < v0 ∧
        (∀ p ∈ pre, p.2 < v0) ∧ (∀ p ∈ post, p.2 ≤ v0)) := by
  induction l with
  | nil => intro bk bv; left; exact ⟨rfl, by simp⟩
  | cons hd t ih =>
    intro bk bv
    obtain ⟨k, v⟩ := hd
    by_cases hv : bv < v
    · rw [show pyMaxGo bk bv ((k, v) :: t) = pyMaxGo k v t from by rw [pyMaxGo, if_pos hv]]
      rcases ih k v with ⟨heq, hle⟩ | ⟨v0, pre, post, heq, hlt, hpre, hpost⟩
      · right
        exact ⟨v, [], t, by rw [heq]; simp, hv, by simp, hle⟩
      · right
        refine ⟨v0, (k, v) :: pre, post, by rw [List.cons_append, ← heq],
          lt_trans hv hlt, ?_, hpost⟩
        intro p hp
        rcases List.mem_cons.mp hp with h | h
        · rw [h]; exact hlt
        · exact hpre p h
    · rw [show pyMaxGo bk bv ((k, v) :: t) = pyMaxGo bk bv t from by rw [pyMaxGo, if_neg hv]]
      rcases ih bk bv with ⟨heq, hle⟩ | ⟨v0, pre, post, heq, hlt, hpre, hpost⟩
      · left
        refine ⟨heq, ?_⟩
        intro p hp
        rcases List.mem_cons.mp hp with h | h
        · rw [h]; exact not_lt.mp hv
        · exact hle p h
      · right
        refine ⟨v0, (k, v) :: pre, post, by rw [List.cons_append, ← heq], hlt, ?_, hpost⟩
        intro p hp
        rcases List.mem_cons.mp hp with h | h
        · rw [h]; exact lt_of_le_of_lt (not_lt.mp hv) hlt
        · exact hpre p h

/-! Claim C7. -/

/-- C7: for every duration range and every id-keyed mapping of video
details, the filter output is a sub-mapping of its input keyed by the same
ids; an entry survives exactly when it is an input entry whose parsed
duration lies between the bounds, both ends inclusive, and entries whose
parsed duration equals the lower or the upper bound are retained. -/
theorem C7_duration_filter_invariants (vd : List (String × VideoDetail)) (minMinutes : ℚ)
    (maxMinutes : Option ℚ) (hnd : (vd.map Prod.fst).Nodup) :
    (filter_videos_by_duration vd minMinutes maxMinutes).Sublist vd ∧
    (∀ p, p ∈ filter_videos_by_duration vd minMinutes maxMinutes ↔
      p ∈ vd ∧ minMinutes ≤ convert_iso_duration_to_minutes p.2.duration ∧
        ∀ m, maxMinutes = some m → convert_iso_duration_to_minutes p.2.duration ≤ m) ∧
    (∀ p ∈ vd, convert_iso_duration_to_minutes p.2.duration = minMinutes →
      (∀ m, maxMinutes = some m → minMinutes ≤ m) →
      p ∈ filter_videos_by_duration vd minMinutes maxMinutes) ∧
    (∀ p ∈ vd, ∀ m, maxMinutes = some m →
      convert_iso_duration_to_minutes p.2.duration = m → minMinutes ≤ m →
      p ∈ filter_videos_by_duration vd minMinutes maxMinutes) := by
  have hfe := filter_eq_listFilter vd minMinutes maxMinutes hnd
  have hmem : ∀ p, p ∈ filter_videos_by_duration vd minMinutes maxMinutes ↔
      p ∈ vd ∧ minMinutes ≤ convert_iso_duration_to_minutes p.2.duration ∧
        ∀ m, maxMinutes = some m → convert_iso_duration_to_minutes p.2.duration ≤ m := by
    intro p
    rw [hfe, List.mem_filter]
    constructor
    · rintro ⟨hin, hpred⟩
      exact ⟨hin, (inDurationRange_iff _ _ _).mp hpred⟩
    · rintro ⟨hin, hpred⟩
      exact ⟨hin, (inDurationRange_iff _ _ _).mpr hpred⟩
  refine ⟨?_, hmem, ?_, ?_⟩
  · rw [hfe]
    exact List.filter_sublist vd
  · intro p hp hmin hmax
    refine (hmem p).mpr ⟨hp, le_of_eq hmin.symm, fun m hm => ?_⟩
    rw [hmin]
    exact hmax m hm
  · intro p hp m hm hconv hminle
    refine (hmem p).mpr ⟨hp, ?_, fun m2 hm2 => ?_⟩
    · rw [hconv]
      exact hminle
    · rw [hm] at hm2
      injection hm2 with h2
    
      rw [hconv, h2]

unseal Rat.add Rat.mul Rat.inv in
theorem C7_duration_filter_invariants_witness :
    ("a", (⟨"t", "PT4M", "p", "c"⟩ : VideoDetail)) ∈
      filter_videos_by_duration [("a", ⟨"t", "PT4M", "p", "c"⟩)] 4 (some 20) :=
  (C7_duration_filter_invariants [("a", ⟨"t", "PT4M", "p", "c"⟩)] 4 (some 20)
      (by decide)).2.2.1
    ("a", ⟨"t", "PT4M", "p", "c"⟩) (by simp) (by decide)
    (by intro m hm; injection hm with h; rw [← h]; norm_num)

/-! Claim C6. -/

unseal Rat.add Rat.mul Rat.inv in
/-- C6: the orchestrator's max reduction over a non-empty score map returns
a key holding a maximal score such that every strictly earlier entry scores
strictly below it, so ties go to the earliest entry; when every score is
equal the head key is returned, and in a full run whose every scoring call
fails, every score is zero and the first surviving candidate in input order
wins. -/
theorem C6_max_by_score (k : String) (v : ℚ) (rest : List (String × ℚ)) :
    (∃ k0 v0 pre post,
      pyMaxKey ((k, v) :: rest) = some k0 ∧
      (k, v) :: rest = pre ++ (k0, v0) :: post ∧
      (∀ p ∈ (k, v) :: rest, p.2 ≤ v0) ∧
      (∀ p ∈ pre, p.2 < v0)) ∧
    ((∀ p ∈ (k, v) :: rest, p.2 = v) → pyMaxKey ((k, v) :: rest) = some k) ∧
    process_query "lofi beats" 14 "any"
        ⟨Except.ok [searchA, searchB], ⟨200, "", [rawA, rawB]⟩, llmAllFail⟩ =
      ProcResult.best "Chill lofi mix A" "PT3M" "2026-10-01T00:00:00Z" "ChanA"
        "https://www.youtube.com/watch?v=aaa111" := by
  refine ⟨?_, ?_, by decide⟩
  · rcases pyMaxGo_spec rest k v with ⟨heq, hle⟩ | ⟨v0, pre, post, heq, hlt, hpre, hpost⟩
    · refine ⟨k, v, [], rest, ?_, by simp, ?_, by simp⟩
      · rw [pyMaxKey, heq]
      · intro p hp
        rcases List.mem_cons.mp hp with h | h
        · rw [h]
        · exact hle p h
    · refine ⟨pyMaxGo k v rest, v0, (k, v) :: pre, post, by rw [pyMaxKey],
        by rw [List.cons_append, ← heq], ?_, ?_⟩
      · intro p hp
        rcases List.mem_cons.mp hp with h | h
        · rw [h]
          exact le_of_lt hlt
        · rw [heq] at h
          rcases List.mem_append.mp h with h2 | h2
          · exact le_of_lt (hpre p h2)
          · rcases List.mem_cons.mp h2 with h3 | h3
            · rw [h3]
            · exact hpost p h3
      · intro p hp
        rcases List.mem_cons.mp hp with h | h
        · rw [h]
          exact hlt
        · exact hpre p h
  · intro hall
    have hle : ∀ p ∈ rest, p.2 ≤ v :=
      fun p hp => le_of_eq (hall p (List.mem_cons_of_mem _ hp))
    rw [pyMaxKey, pyMaxGo_of_le rest k v hle]

theorem C6_max_by_score_witness : pyMaxKey [("x", (0 : ℚ)), ("y", 0)] = some "x" :=
  (C6_max_by_score "x" 0 [("y", 0)]).2.1 (by decide)

/-! Helper lemmas about the greedy brace search. -/

theorem lastRBrace_of_not_mem (l : List Char) (h : '\x7d' ∉ l) : lastRBrace l = none := by
  induction l with
  | nil => rfl
  | cons c rest ih =>
    have hc : c ≠ '\x7d' := fun hcc => h (by rw [← hcc]; exact List.mem_cons_self _ _)
    have hr : '\x7d' ∉ rest := fun hrr => h (List.mem_cons_of_mem _ hrr)
    simp [lastRBrace, ih hr, hc]

theorem lastRBrace_append (mid tp : List Char) (h : '\x7d' ∉ tp) :
    lastRBrace (mid ++ '\x7d' :: tp) = some mid.length := by
  induction mid with
  | nil => simp [lastRBrace, lastRBrace_of_not_mem tp h]
  | cons c rest ih => simp [lastRBrace, ih]

theorem takeWhile_append_all {p : Char → Bool} (a b : List Char) (h : ∀ x ∈ a, p x = true) :
    (a ++ b).takeWhile p = a ++ b.takeWhile p := by
  induction a with
  | nil => simp
  | cons c rest ih =>
    have hc : p c = true := h c (List.mem_cons_self _ _)
    simp [List.takeWhile_cons, hc, ih (fun x hx => h x (List.mem_cons_of_mem _ hx))]

theorem braceMatchAt_cons_ne (c : Char) (s : List Char) (h : c ≠ '\x7b') :
    braceMatchAt (c :: s) = none := by
  unfold braceMatchAt
  split
  · rename_i rest heq
    injection heq with h1 _
    exact absurd h1 h
  · rfl

theorem reSearchBraces_span (pre mid post : List Char)
    (hpre : '\x7b' ∉ pre) (hmid : '\n' ∉ mid)
    (hpost : '\x7d' ∉ post.takeWhile (fun c => c != '\n')) :
    reSearchBraces (pre ++ '\x7b' :: (mid ++ '\x7d' :: post))
      = some ('\x7b' :: (mid ++ ['\x7d'])) := by
  induction pre with
  | nil =>
    have hline : (mid ++ '\x7d' :: post).takeWhile (fun c => c != '\n')
        = mid ++ '\x7d' :: post.takeWhile (fun c => c != '\n') := by
      rw [takeWhile_append_all mid _ (fun x hx => by
        simp only [bne_iff_ne, ne_eq, decide_eq_true_eq]
        intro hxe
        exact hmid (by rw [← hxe]; exact hx))]
      simp [List.takeWhile_cons]
    have hbm : braceMatchAt ('\x7b' :: (mid ++ '\x7d' :: post))
        = some ('\x7b' :: (mid ++ ['\x7d'])) := by
      simp only [braceMatchAt, hline, lastRBrace_append _ _ hpost]
      rw [show mid.length + 1 = mid.length + 1 from rfl, List.take_append 1]
      simp
    rw [List.nil_append, reSearchBraces, hbm]
  | cons c pre2 ih =>
    have hc : c ≠ '\x7b' := fun hcc => hpre (by rw [← hcc]; exact List.mem_cons_self _ _)
    have hpre2 : '\x7b' ∉ pre2 := fun hpp => hpre (List.mem_cons_of_mem _ hpp)
    rw [List.cons_append, reSearchBraces, braceMatchAt_cons_ne _ _ hc]
    exact ih hpre2

/-! Helper lemmas about appending input after a duration match. -/

theorem takeWhile_dropWhile_append {p : Char → Bool} (xs : List Char)
    (h : xs.dropWhile p ≠ []) (t : List Char) :
    (xs ++ t).takeWhile p = xs.takeWhile p ∧
      (xs ++ t).dropWhile p = xs.dropWhile p ++ t := by
  induction xs with
  | nil => exact absurd rfl h
  | cons c xs2 ih =>
    by_cases hc : p c = true
    · have h2 : xs2.dropWhile p ≠ [] := by
        intro hnil
        apply h
        simp [List.dropWhile_cons, hc, hnil]
      obtain ⟨ht1, ht2⟩ := ih h2
      constructor
      · simp [List.takeWhile_cons, hc, ht1]
      · simp [List.dropWhile_cons, hc, ht2]
    · constructor <;> simp [List.takeWhile_cons, List.dropWhile_cons, hc]

theorem comp_shape (c : Char) (xs : List Char) :
    comp c xs = (none, xs) ∨
    ∃ r, comp c xs = (some (digitsToNat (xs.takeWhile (·.isDigit))), r) ∧
      xs.dropWhile (·.isDigit) = c :: r ∧ xs.takeWhile (·.isDigit) ≠ [] := by
  by_cases h1 : xs.takeWhile (·.isDigit) = []
  · left
    simp [comp, h1]
  · cases hdrop : xs.dropWhile (·.isDigit) with
    | nil =>
      left
      simp [comp, h1, hdrop]
    | cons c0 r2 =>
      by_cases hc : c0 = c
      · right
        exact ⟨r2, by simp [comp, h1, hdrop, hc], by simp [hdrop, hc], h1⟩
      · left
        simp [comp, h1, hdrop, hc]

theorem comp_some_break (c : Char) (xs : List Char) (n : Nat) (r : List Char)
    (h : comp c xs = (some n, r)) : xs.dropWhile (·.isDigit) ≠ [] := by
  rcases comp_shape c xs with h0 | ⟨r4, _, hdrop, _⟩
  · rw [h0] at h
    simp at h
  · rw [hdrop]
    simp

theorem comp_none_eq (c : Char) (xs r : List Char) (h : comp c xs = (none, r)) : r = xs := by
  rcases comp_shape c xs with h0 | ⟨r4, heq, _, _⟩
  · rw [h0] at h
    simp only [Prod.mk.injEq] at h
    exact h.2.symm
  · rw [heq] at h
    simp at h

theorem comp_some_append (c : Char) (xs t : List Char) (n : Nat) (r : List Char)
    (h : comp c xs = (some n, r)) :
    comp c (xs ++ t) = (some n, r ++ t) := by
  rcases comp_shape c xs with h0 | ⟨r2, heq, hdrop, hne⟩
  · rw [h0] at h
    simp at h
  · rw [heq] at h
    simp only [Prod.mk.injEq, Option.some.injEq] at h
    obtain ⟨hn, hr⟩ := h
    have hb : xs.dropWhile (·.isDigit) ≠ [] := by
      rw [hdrop]
      simp
    obtain ⟨ht1, ht2⟩ := takeWhile_dropWhile_append xs hb t
    have hstep : (xs ++ t).dropWhile (·.isDigit) = c :: (r2 ++ t) := by
      rw [ht2, hdrop]
      rfl
    rw [← hn, ← hr]
    simp [comp, ht1, hne, hstep]

theorem comp_none_append (c : Char) (xs t : List Char)
    (h : comp c xs = (none, xs)) (hb : xs.dropWhile (·.isDigit) ≠ []) :
    comp c (xs ++ t) = (none, xs ++ t) := by
  obtain ⟨ht1, ht2⟩ := takeWhile_dropWhile_append xs hb t
  by_cases h1 : xs.takeWhile (·.isDigit) = []
  · simp [comp, ht1, h1]
  · cases hdrop : xs.dropWhile (·.isDigit) with
    | nil => exact absurd hdrop hb
    | cons c0 r2 =>
      have hc : c0 ≠ c := by
        intro hcc
        rw [hcc] at hdrop
        simp [comp, h1, hdrop] at h
      have hstep : (xs ++ t).dropWhile (·.isDigit) = c0 :: (r2 ++ t) := by
        rw [ht2, hdrop]
        rfl
      simp [comp, ht1, h1, hstep, hc]

theorem comp_headNotDigit (c : Char) (t : List Char)
    (ht : ∀ d, t.head? = some d → d.isDigit = false) :
    comp c t = (none, t) := by
  cases t with
  | nil => simp [comp]
  | cons d t2 =>
    have hd : d.isDigit = false := ht d rfl
    simp [comp, List.takeWhile_cons, hd]

theorem comp_none_append2 (c : Char) (xs t : List Char)
    (h : comp c xs = (none, xs))
    (hcase : xs.dropWhile (·.isDigit) ≠ [] ∨
      (xs = [] ∧ ∀ d, t.head? = some d → d.isDigit = false)) :
    comp c (xs ++ t) = (none, xs ++ t) := by
  rcases hcase with hb | ⟨hxs, ht⟩
  · exact comp_none_append c xs t h hb
  · subst hxs
    simpa using comp_headNotDigit c t ht

theorem durMatch_append (cs t : List Char) (g : DurGroups)
    (hm : durMatch cs = some (g, []))
    (ht : ∀ d, t.head? = some d → d.isDigit = false) :
    durMatch (cs ++ t) = some (g, t) := by
  obtain ⟨rest, rfl⟩ : ∃ rest, cs = 'P' :: 'T' :: rest := by
    unfold durMatch at hm
    split at hm
    · rename_i rest
      exact ⟨rest, rfl⟩
    · exact absurd hm (by simp)
  rcases hH : comp 'H' rest with ⟨h1, r1⟩
  rcases hM : comp 'M' r1 with ⟨m1, r2⟩
  rcases hS : comp 'S' r2 with ⟨s1, r3⟩
  simp only [durMatch, hH, hM, hS, Option.some.injEq, Prod.mk.injEq] at hm
  obtain ⟨hg, hr3⟩ := hm
  subst hr3
  subst hg
  cases s1 with
  | some ns =>
    have hS2 := comp_some_append 'S' _ t _ _ hS
    have hbr2 := comp_some_break 'S' _ _ _ hS
    cases m1 with
    | some nm =>
      have hM2 := comp_some_append 'M' _ t _ _ hM
      have hbr1 := comp_some_break 'M' _ _ _ hM
      cases h1 with
      | some nh =>
        have hH2 := comp_some_append 'H' _ t _ _ hH
        simp [durMatch, List.cons_append, hH2, hM2, hS2]
      | none =>
        have hr1e := comp_none_eq 'H' _ _ hH
        subst hr1e
        have hH2 := comp_none_append2 'H' _ t hH (Or.inl hbr1)
        simp [durMatch, List.cons_append, hH2, hM2, hS2]
    | none =>
      have hr2e := comp_none_eq 'M' _ _ hM
      subst hr2e
      have hM2 := comp_none_append2 'M' _ t hM (Or.inl hbr2)
      cases h1 with
      | some nh =>
        have hH2 := comp_some_append 'H' _ t _ _ hH
        simp [durMatch, List.cons_append, hH2, hM2, hS2]
      | none =>
        have hr1e := comp_none_eq 'H' _ _ hH
        subst hr1e
        have hH2 := comp_none_append2 'H' _ t hH (Or.inl hbr2)
        simp [durMatch, List.cons_append, hH2, hM2, hS2]
  | none =>
    have hr2e := (comp_none_eq 'S' _ _ hS).symm
    subst hr2e
    have hS2 := comp_headNotDigit 'S' t ht
    cases m1 with
    | some nm =>
      have hM2 := comp_some_append 'M' _ t _ _ hM
      have hbr1 := comp_some_break 'M' _ _ _ hM
      cases h1 with
      | some nh =>
        have hH2 := comp_some_append 'H' _ t _ _ hH
        simp [durMatch, List.cons_append, hH2, hM2, hS2]
      | none =>
        have hr1e := comp_none_eq 'H' _ _ hH
        subst hr1e
        have hH2 := comp_none_append2 'H' _ t hH (Or.inl hbr1)
        simp [durMatch, List.cons_append, hH2, hM2, hS2]
    | none =>
      have hr1e := (comp_none_eq 'M' _ _ hM).symm
      subst hr1e
      have hM2 := comp_headNotDigit 'M' t ht
      cases h1 with
      | some nh =>
        have hH2 := comp_some_append 'H' _ t _ _ hH
        simp [durMatch, List.cons_append, hH2, hM2, hS2]
      | none =>
        have hreste := (comp_none_eq 'H' _ _ hH).symm
        subst hreste
        have hH2 := comp_headNotDigit 'H' t ht
        simp [durMatch, List.cons_append, hH2, hM2, hS2]

/-! Claim C1. -/

unseal Rat.add Rat.mul Rat.inv in
/-- C1: with duration category medium and two detailed candidates, A three
minutes long scoring 40 and B ten minutes long scoring 90, the run returns
B's full detail record with the watch url built from B's id; A is dropped
at the duration-filter stage because three minutes lies outside the
inclusive range from four to twenty, regardless of its score. -/
theorem C1_medium_run_returns_B :
    process_query "lofi beats" 14 "medium"
        ⟨Except.ok [searchA, searchB], ⟨200, "", [rawA, rawB]⟩, llmScores4090⟩ =
      ProcResult.best "Lofi beats to relax B" "PT10M" "2026-10-02T00:00:00Z" "ChanB"
        "https://www.youtube.com/watch?v=bbb222" ∧
    get_video_details ["aaa111", "bbb222"] ⟨200, "", [rawA, rawB]⟩ =
      Except.ok [("aaa111", detA), ("bbb222", detB)] ∧
    filter_videos_by_duration [("aaa111", detA), ("bbb222", detB)] 4 (some 20)
      = [("bbb222", detB)] :=
  ⟨by decide, by decide, by decide⟩

/-! Claim C2. -/

unseal Rat.add Rat.mul Rat.inv in
/-- C2 evaluated at the failing input: the category short resolves to the
bounds zero and four and the filter comparison is inclusive at both ends,
so a video of exactly four minutes is retained under short and a short run
returns it; the code's own docstring and form label say short means less
than four minutes. The other three categories resolve as the claim says. -/
theorem C2_short_retains_four_minutes :
    durationBounds "short" = (0, some 4) ∧
    durationBounds "medium" = (4, some 20) ∧
    durationBounds "long" = (20, none) ∧
    durationBounds "any" = (0, none) ∧
    convert_iso_duration_to_minutes "PT4M" = 4 ∧
    filter_videos_by_duration [("vvv444", ⟨"T4", "PT4M", "P4", "C4"⟩)] 0 (some 4)
      = [("vvv444", ⟨"T4", "PT4M", "P4", "C4"⟩)] ∧
    process_query "q" 14 "short"
        ⟨Except.ok [⟨"vvv444", "T4", "P4"⟩],
          ⟨200, "", [⟨"vvv444", "PT4M", "T4", "P4", "C4"⟩]⟩, llmAllFail⟩ =
      ProcResult.best "T4" "PT4M" "P4" "C4" "https://www.youtube.com/watch?v=vvv444" :=
  ⟨by decide, by decide, by decide, by decide, by decide, by decide, by decide⟩

/-! Claim C3. -/

unseal Rat.add Rat.mul Rat.inv in
/-- C3 counterexample: a response holding the object with score 87 followed
by further brace-delimited text on the same line does not yield 87: the
greedy pattern spans both objects, the span is not valid JSON, and the
scorer returns 0. -/
theorem C3_counterexample :
    call_llm_to_score_title
        (Except.ok "\x7b\"score\": 87\x7d and \x7b\"note\": 1\x7d") = 0 ∧
    (0 : ℚ) ≠ 87 :=
  ⟨by decide, by norm_num⟩

unseal Rat.add Rat.mul Rat.inv in
/-- C3 amended: the scorer extracts the span from the first open brace to
the last close brace of that brace's line, because the greedy dot does not
cross a newline; an object embedded in prose with no later close brace on
its line parses and yields its score, while additional brace-delimited text
after the object on the same line makes the span invalid JSON and the
scorer returns 0. -/
theorem C3_greedy_first_to_last_span :
    (∀ pre mid post : List Char, '\x7b' ∉ pre → '\n' ∉ mid →
      '\x7d' ∉ post.takeWhile (fun c => c != '\n') →
      reSearchBraces (pre ++ '\x7b' :: (mid ++ '\x7d' :: post))
        = some ('\x7b' :: (mid ++ ['\x7d']))) ∧
    call_llm_to_score_title
        (Except.ok "Sure, here you go: \x7b\"score\": 87\x7d hope that helps") = 87 ∧
    call_llm_to_score_title
        (Except.ok "\x7b\"score\": 87\x7d and \x7b\"note\": 1\x7d") = 0 :=
  ⟨reSearchBraces_span, by decide, by decide⟩

theorem C3_greedy_first_to_last_span_witness :
    reSearchBraces ("ok ".data ++ '\x7b' :: ("\"score\": 87".data ++ '\x7d' :: " done".data))
      = some ('\x7b' :: ("\"score\": 87".data ++ ['\x7d'])) :=
  C3_greedy_first_to_last_span.1 "ok ".data "\"score\": 87".data " done".data
    (by decide) (by decide) (by decide)

/-! Claim C4. -/

unseal Rat.add Rat.mul Rat.inv in
/-- C4 counterexample: a model response whose score field is 150 makes the
scorer return 150, outside the claimed interval from 0 to 100. -/
theorem C4_counterexample :
    call_llm_to_score_title (Except.ok "\x7b\"score\": 150\x7d") = 150 ∧
    ¬ ((150 : ℚ) ≤ 100) :=
  ⟨by decide, by norm_num⟩

unseal Rat.add Rat.mul Rat.inv in
/-- C4 amended: the scorer returns the parsed score value unchanged, with
no clamping into the interval from 0 to 100: whatever rational the try body
extracts is returned as is, a score field of 150 yields 150 and a score
field of -5 yields -5; only failures map to 0. -/
theorem C4_no_clamping :
    (∀ resp q, scoreTryBody resp = Except.ok q → call_llm_to_score_title resp = q) ∧
    call_llm_to_score_title (Except.ok "\x7b\"score\": 150\x7d") = 150 ∧
    call_llm_to_score_title (Except.ok "\x7b\"score\": -5\x7d") = -5 := by
  refine ⟨?_, by decide, by decide⟩
  intro resp q h
  unfold call_llm_to_score_title
  rw [h]

unseal Rat.add Rat.mul Rat.inv in
theorem C4_no_clamping_witness :
    call_llm_to_score_title (Except.ok "\x7b\"score\": 87\x7d") = 87 :=
  C4_no_clamping.1 (Except.ok "\x7b\"score\": 87\x7d") 87 (by decide)

/-! Claim C5. -/

unseal Rat.add Rat.mul Rat.inv in
/-- C5: every failure inside one scoring call is absorbed: whenever the try
body fails the scorer returns 0; concretely, a raised model call, a
response with no brace pair, an unparsable brace span and a parsed object
without a score key all yield 0, and a run in which one candidate's scoring
call raises still completes and returns the other candidate's record. -/
theorem C5_scoring_failures_absorbed :
    (∀ resp e, scoreTryBody resp = Except.error e → call_llm_to_score_title resp = 0) ∧
    call_llm_to_score_title (Except.error ()) = 0 ∧
    call_llm_to_score_title (Except.ok "I cannot rate this title.") = 0 ∧
    call_llm_to_score_title (Except.ok "\x7bscore: 87\x7d") = 0 ∧
    call_llm_to_score_title (Except.ok "\x7b\"result\": 42\x7d") = 0 ∧
    process_query "lofi beats" 14 "any"
        ⟨Except.ok [searchA, searchB], ⟨200, "", [rawA, rawB]⟩, llmFailA⟩ =
      ProcResult.best "Lofi beats to relax B" "PT10M" "2026-10-02T00:00:00Z" "ChanB"
        "https://www.youtube.com/watch?v=bbb222" := by
  refine ⟨?_, by decide, by decide, by decide, by decide, by decide⟩
  intro resp e h
  unfold call_llm_to_score_title
  rw [h]

theorem C5_scoring_failures_absorbed_witness :
    call_llm_to_score_title (Except.error ()) = 0 :=
  C5_scoring_failures_absorbed.1 (Except.error ()) ScoreErr.callFailed rfl

/-! Claim C8. -/

unseal Rat.add Rat.mul Rat.inv in
/-- C8: the parser's sample values hold, and in general the value of a
matched token is hours times sixty plus minutes plus seconds over sixty,
with absent groups defaulting to zero. -/
theorem C8_parser_values :
    convert_iso_duration_to_minutes "PT5M30S" = 11 / 2 ∧
    convert_iso_duration_to_minutes "PT1H" = 60 ∧
    convert_iso_duration_to_minutes "PT45S" = 3 / 4 ∧
    convert_iso_duration_to_minutes "garbage" = 0 ∧
    convert_iso_duration_to_minutes "PT" = 0 ∧
    (∀ s g r, durMatch s = some (g, r) →
      convertChars s
        = (g.hours.getD 0 : ℚ) * 60 + (g.minutes.getD 0 : ℚ)
          + (g.seconds.getD 0 : ℚ) / 60) := by
  refine ⟨by decide, by decide, by decide, by decide, by decide, ?_⟩
  intro s g r h
  unfold convertChars
  rw [h]
  rfl

unseal Rat.add Rat.mul Rat.inv in
theorem C8_parser_values_witness :
    convertChars "PT45S".data
      = ((DurGroups.mk none none (some 45)).hours.getD 0 : ℚ) * 60
        + ((DurGroups.mk none none (some 45)).minutes.getD 0 : ℚ)
        + ((DurGroups.mk none none (some 45)).seconds.getD 0 : ℚ) / 60 :=
  C8_parser_values.2.2.2.2.2 "PT45S".data ⟨none, none, some 45⟩ [] (by decide)

/-! Claim C9. -/

/-- C9 counterexample: the detail client called with an empty id list still
depends on the upstream response and raises on a non-success status, so it
is not the case that it never raises for every possible upstream
response. -/
theorem C9_counterexample :
    get_video_details [] ⟨500, "backend error", []⟩ =
      Except.error "YouTube API error: 500 backend error" := by decide

/-- C9 amended: the detail client issues the request even for an empty
batch: on any non-success upstream status it raises the upstream error
embedding status and body, and on a success response with no items it
returns the empty mapping. -/
theorem C9_empty_batch :
    (∀ st txt items, st ≠ 200 →
      get_video_details [] ⟨st, txt, items⟩ =
        Except.error ("YouTube API error: " ++ toString st ++ " " ++ txt)) ∧
    (∀ txt, get_video_details [] ⟨200, txt, []⟩ = Except.ok []) := by
  constructor
  · intro st txt items h
    simp [get_video_details, h]
  · intro txt
    simp [get_video_details]

theorem C9_empty_batch_witness :
    get_video_details [] ⟨404, "not found", []⟩ =
      Except.error ("YouTube API error: " ++ toString 404 ++ " " ++ "not found") :=
  C9_empty_batch.1 404 "not found" [] (by decide)

/-! Claim C10. -/

unseal Rat.add Rat.mul Rat.inv in
/-- C10: the pattern matches only a prefix of the token: after a full match,
any trailing input whose first character is not a digit (so it cannot extend
a final digit run) leaves the groups and hence the value unchanged; the
sample values with trailing text hold, and a token whose components are not
plain integers contributes nothing and yields zero. -/
theorem C10_trailing_input_ignored :
    (∀ cs t g, durMatch cs = some (g, []) →
      (∀ d, t.head? = some d → d.isDigit = false) →
      durMatch (cs ++ t) = some (g, t) ∧ convertChars (cs ++ t) = convertChars cs) ∧
    convert_iso_duration_to_minutes "PT5M30Sxyz" = 11 / 2 ∧
    convert_iso_duration_to_minutes "PT5Mfoo" = 5 ∧
    convert_iso_duration_to_minutes "PT3.5M" = 0 := by
  refine ⟨?_, by decide, by decide, by decide⟩
  intro cs t g hm ht
  have h2 := durMatch_append cs t g hm ht
  refine ⟨h2, ?_⟩
  unfold convertChars
  rw [h2, hm]

unseal Rat.add Rat.mul Rat.inv in
theorem C10_trailing_input_ignored_witness :
    durMatch ("PT5M30S".data ++ "xyz".data)
        = some (⟨none, some 5, some 30⟩, "xyz".data) ∧
    convertChars ("PT5M30S".data ++ "xyz".data) = convertChars "PT5M30S".data :=
  C10_trailing_input_ignored.1 "PT5M30S".data "xyz".data ⟨none, some 5, some 30⟩
    (by decide) (by decide)

end YTFinder
